import Mathlib

/-! The turn loop of agentLLM, `main.go`.

A shallow embedding of `src/main.go`.  The program talks to three outside
collaborators: the line reader behind `getUserMessage`, the inference
transport behind `client.Messages.New`, and the standard output.  The two
readers are state transformers over an arbitrary world type `ω`; everything the
program does to the outside is recorded, in program order, as a list of
`Event`s.  The endless `for` of `Agent.Run` is bounded by a count of loop
iterations; a run that used up the count is reported with `ret = none`.
-/

namespace AgentLLM

/-! ## Data model -/

/-- A Go `error` value that is not nil, represented by its message. -/
abbrev Error := String

/-- The type `json.RawMessage`: undecoded JSON text. -/
abbrev RawMessage := String

/-- Outcome of a Go call that either returns or panics. -/
inductive GoResult (α : Type) where
  | returned (v : α)
  | panicked (e : Error)
  deriving DecidableEq, Repr

/-- Roles of a conversation message. -/
inductive Role where
  | user
  | assistant
  deriving DecidableEq, Repr

/-- Modelled from the spec: the content-block type of the SDK, which is not part
of the source file; the spec (section 3) gives it as the tagged variant
`Text | ToolCall | ToolResult`. -/
inductive ContentBlock where
  | Text (value : String)
  | ToolCall (id : String) (name : String) (input : RawMessage)
  | ToolResult (tool_call_id : String) (output : String) (is_error : Bool)
  deriving DecidableEq, Repr

/-- The field `content.Type` that `Run` switches on. -/
def ContentBlock.typeTag : ContentBlock → String
  | .Text _ => "text"
  | .ToolCall _ _ _ => "tool_use"
  | .ToolResult _ _ _ => "tool_result"

/-- The field `content.Text`, empty in a block that is not a text block. -/
def ContentBlock.text : ContentBlock → String
  | .Text value => value
  | _ => ""

/-- An entry of the conversation, `anthropic.MessageParam`. -/
structure MessageParam where
  Role : Role
  Content : List ContentBlock
  deriving DecidableEq, Repr

/-- A response of the model, `anthropic.Message`. -/
structure Message where
  Content : List ContentBlock
  StopReason : String
  deriving DecidableEq, Repr

/-- The conversion `message.ToParam()`: the response as an assistant message. -/
def Message.ToParam (m : Message) : MessageParam :=
  { Role := Role.assistant, Content := m.Content }

/-- The constructor `anthropic.NewTextBlock`. -/
def NewTextBlock (text : String) : ContentBlock := ContentBlock.Text text

/-- The constructor `anthropic.NewUserMessage`. -/
def NewUserMessage (blocks : List ContentBlock) : MessageParam :=
  { Role := Role.user, Content := blocks }

/-! ## Schemas -/

/-- Schema of one property, as far as the program is concerned. -/
structure PropertySchema where
  TypeName : String
  Description : String
  deriving DecidableEq, Repr

/-- The value `reflector.Reflect` returns (`jsonschema.Schema`), restricted to
the fields the claims speak about. `AdditionalProperties = some false` is the
prohibition of undeclared properties; `none` is the field left unset. -/
structure Schema where
  Properties : List (String × PropertySchema)
  Required : List String
  AdditionalProperties : Option Bool
  deriving DecidableEq, Repr

/-- The SDK type `anthropic.ToolInputSchemaParam`: the property map, the list of
required names, and the extra fields (key and JSON text) sent along. -/
structure ToolInputSchemaParam where
  Properties : List (String × PropertySchema)
  Required : List String
  ExtraFields : List (String × String)
  deriving DecidableEq, Repr

/-- The settings of `jsonschema.Reflector` the program writes. -/
structure Reflector where
  AllowAdditionalProperties : Bool
  DoNotReference : Bool
  deriving DecidableEq, Repr

/-- One field of a Go struct type: name, type and the raw tag text. -/
structure StructField where
  Name : String
  TypeName : String
  Tag : String
  deriving DecidableEq, Repr

/-- A Go struct type, the `T` of `GenerateSchema[T]`. -/
structure StructType where
  Name : String
  Fields : List StructField
  deriving DecidableEq, Repr

/-- `GenerateSchema[T]`, lines 143-155.  The reflection library is a parameter.
The struct literal that is returned sets `Properties` only; the other fields
keep their Go zero value. -/
def GenerateSchema (reflect : Reflector → StructType → Schema) (T : StructType) :
    ToolInputSchemaParam :=
  let reflector : Reflector := { AllowAdditionalProperties := false, DoNotReference := true }
  let schema := reflect reflector T
  { Properties := schema.Properties, Required := [], ExtraFields := [] }

/-! ## The read_file tool -/

/-- The struct `ReadFileInput` after decoding. -/
structure ReadFileInput where
  Path : String
  deriving DecidableEq, Repr

/-- The tag text of the field `Path` of `ReadFileInput`, line 121, character for
character. -/
def ReadFileInput_Path_Tag : String :=
  "json:\"path\" jsonschema_description: \"The relative path to the file to read\""

/-- The type descriptor of `ReadFileInput`, lines 120-122. -/
def ReadFileInputType : StructType :=
  { Name := "ReadFileInput",
    Fields := [{ Name := "Path", TypeName := "string", Tag := ReadFileInput_Path_Tag }] }

/-- `ReadFile`, lines 126-141.  `unmarshal` stands for `json.Unmarshal` into a
`ReadFileInput`, `osReadFile` for `os.ReadFile`. -/
def ReadFile (unmarshal : RawMessage → Except Error ReadFileInput)
    (osReadFile : String → Except Error String) (input : RawMessage) :
    GoResult (String × Option Error) :=
  match unmarshal input with
  | .error err => GoResult.panicked err
  | .ok readFileInput =>
    match osReadFile readFileInput.Path with
    | .error err => GoResult.returned ("", some err)
    | .ok content => GoResult.returned (content, none)

/-- The struct `ToolDefinition`, lines 105-110. -/
structure ToolDefinition where
  Name : String
  Description : String
  InputSchema : ToolInputSchemaParam
  Function : RawMessage → GoResult (String × Option Error)

/-- `ReadFileInputSchema`, line 124. -/
def ReadFileInputSchema (reflect : Reflector → StructType → Schema) : ToolInputSchemaParam :=
  GenerateSchema reflect ReadFileInputType

/-- `ReadFileDefinition`, lines 113-118. -/
def ReadFileDefinition (reflect : Reflector → StructType → Schema)
    (unmarshal : RawMessage → Except Error ReadFileInput)
    (osReadFile : String → Except Error String) : ToolDefinition :=
  { Name := "read_file",
    Description := "Read a file of a given relative file path",
    InputSchema := ReadFileInputSchema reflect,
    Function := ReadFile unmarshal osReadFile }

/-! ## Struct tags -/

/-- The double quote character. -/
def quoteChar : Char := Char.ofNat 34

/-- The backslash character. -/
def backslashChar : Char := Char.ofNat 92

/-- Characters that may stand in the key of a struct tag: the loop condition of
`reflect.StructTag.Lookup`, a character above the blank that is not a colon,
not a double quote and not the character 0x7f. -/
def isTagKeyChar (c : Char) : Bool :=
  decide (' ' < c) && c != ':' && c != quoteChar && c != Char.ofNat 0x7f

/-- Where `reflect.StructTag.Lookup` is in the tag: skipping blanks, reading a
key (kept reversed), or reading the quoted value of the key `name` (the
characters read so far kept reversed, the opening quote included). -/
inductive TagMode where
  | skip
  | key (acc : List Char)
  | value (name : List Char) (acc : List Char)

/-- The loop of `reflect.StructTag.Lookup` of the Go standard library, which
the reflector uses to read `json` and `jsonschema_description`, as one pass
over the characters of the tag.  A key must be followed at once by a colon and
a double quote; inside the quoted value a backslash takes the next character
with it.  A syntax error ends the search without a value, as the `break`s of
the original do.  `unquote` stands for `strconv.Unquote`. -/
def StructTag.scan (unquote : String → Option String) (key : List Char) :
    TagMode → List Char → Option String
  | .skip, [] => none
  | .skip, c :: t =>
    if c = ' ' then StructTag.scan unquote key .skip t
    else if isTagKeyChar c then StructTag.scan unquote key (.key [c]) t
    else none
  | .key _, [] => none
  | .key acc, c :: t =>
    if isTagKeyChar c then StructTag.scan unquote key (.key (c :: acc)) t
    else if c = ':' then
      match t with
      | [] => none
      | q :: t1 =>
        if q = quoteChar then StructTag.scan unquote key (.value acc.reverse [q]) t1
        else none
    else none
  | .value _ _, [] => none
  | .value name acc, c :: t =>
    if c = quoteChar then
      if key = name then unquote (String.mk (c :: acc).reverse)
      else StructTag.scan unquote key .skip t
    else if c = backslashChar then
      match t with
      | [] => none
      | c1 :: t1 => StructTag.scan unquote key (.value name (c1 :: c :: acc)) t1
    else StructTag.scan unquote key (.value name (c :: acc)) t

/-- `reflect.StructTag.Lookup`: the value of `key` in `tag`, `none` for the
result `("", false)`. -/
def StructTag.Lookup (unquote : String → Option String) (tag : String) (key : String) :
    Option String :=
  StructTag.scan unquote key.data .skip tag.data

/-! ## The agent -/

/-- A tool declaration inside a request, `anthropic.ToolUnionParam` with its
`OfTool` set. -/
structure ToolUnionParam where
  Name : String
  Description : String
  InputSchema : ToolInputSchemaParam
  deriving DecidableEq, Repr

/-- The request `anthropic.MessageNewParams`. -/
structure MessageNewParams where
  Model : String
  MaxTokens : Nat
  Messages : List MessageParam
  Tools : List ToolUnionParam
  deriving DecidableEq, Repr

/-- Results of a fallible call can be compared. -/
instance decEqExcept {ε α : Type} [DecidableEq ε] [DecidableEq α] :
    DecidableEq (Except ε α)
  | .ok a, .ok b =>
    if h : a = b then isTrue (by rw [h]) else isFalse (fun h1 => h (Except.ok.inj h1))
  | .error a, .error b =>
    if h : a = b then isTrue (by rw [h]) else isFalse (fun h1 => h (Except.error.inj h1))
  | .ok _, .error _ => isFalse (fun h => Except.noConfusion h)
  | .error _, .ok _ => isFalse (fun h => Except.noConfusion h)

/-- What the program does to the outside, in program order. -/
inductive Event where
  | print (text : String)
  | getUserMessage (line : String) (ok : Bool)
  | inference (params : MessageNewParams) (result : Except Error Message)
  deriving DecidableEq

/-- The struct `Agent`, lines 43-47.  `client` is the call
`client.Messages.New`, `getUserMessage` the line reader. -/
structure Agent (ω : Type) where
  client : ω → MessageNewParams → Except Error Message × ω
  getUserMessage : ω → (String × Bool) × ω
  tools : List ToolDefinition

/-- `NewAgent`, lines 33-41.  The struct literal sets `client` and
`getUserMessage`; the field `tools` is not written and keeps the zero value of
a slice. -/
def NewAgent {ω : Type} (client : ω → MessageNewParams → Except Error Message × ω)
    (getUserMessage : ω → (String × Bool) × ω) (tools : List ToolDefinition) : Agent ω :=
  let _ := tools
  { client := client, getUserMessage := getUserMessage, tools := [] }

/-- The constant `anthropic.ModelClaude3_7SonnetLatest`. -/
def ModelClaude3_7SonnetLatest : String := "claude-3-7-sonnet-latest"

/-- The loop of lines 85-93: one declaration is appended per tool of `a.tools`. -/
def anthropicToolsOf (tools : List ToolDefinition) : List ToolUnionParam :=
  tools.foldl
    (fun anthropicTools tool =>
      anthropicTools ++
        [{ Name := tool.Name, Description := tool.Description, InputSchema := tool.InputSchema }])
    []

/-- `Agent.runInference`, lines 82-102: result of the call, the world after it,
and the event recorded. -/
def Agent.runInference {ω : Type} (a : Agent ω) (w : ω) (conversation : List MessageParam) :
    Except Error Message × ω × List Event :=
  let anthropicTools := anthropicToolsOf a.tools
  let params : MessageNewParams :=
    { Model := ModelClaude3_7SonnetLatest, MaxTokens := 1024,
      Messages := conversation, Tools := anthropicTools }
  let r := a.client w params
  (r.1, r.2, [Event.inference params r.1])

/-- The text of line 55. -/
def youPrompt : String := "\x1b[94mYou\x1b[0m: "

/-- The text line 74 prints for a text block. -/
def claudeLine (text : String) : String := "\x1b[92mClaude\x1b[0m: " ++ text ++ "\n"

/-- The loop of lines 71-76 over the content of a response. -/
def printContent : List ContentBlock → List Event
  | [] => []
  | content :: rest =>
    if content.typeTag = "text" then
      Event.print (claudeLine content.text) :: printContent rest
    else printContent rest

/-- What is known of a run: the value returned (`none` while the loop is still
running, `some none` for nil, `some (some e)` for an error), the conversation,
the events so far and the world. -/
structure RunResult (ω : Type) where
  ret : Option (Option Error)
  conversation : List MessageParam
  events : List Event
  world : ω

/-- The `for` loop of `Agent.Run`, lines 54-78, for at most `fuel` iterations. -/
def Agent.loop {ω : Type} (a : Agent ω) : Nat → List MessageParam → ω → RunResult ω
  | 0, conversation, w =>
    { ret := none, conversation := conversation, events := [], world := w }
  | fuel + 1, conversation, w =>
    let r := a.getUserMessage w
    let userInput := r.1.1
    let ok := r.1.2
    let evs1 := [Event.print youPrompt, Event.getUserMessage userInput ok]
    if ok = false then
      { ret := some none, conversation := conversation, events := evs1, world := r.2 }
    else
      let userMessage := NewUserMessage [NewTextBlock userInput]
      let conversation := conversation ++ [userMessage]
      match a.runInference r.2 conversation with
      | (.error err, w2, evs2) =>
        { ret := some (some err), conversation := conversation, events := evs1 ++ evs2,
          world := w2 }
      | (.ok message, w2, evs2) =>
        let conversation := conversation ++ [message.ToParam]
        let evs3 := printContent message.Content
        let rest := a.loop fuel conversation w2
        { rest with events := evs1 ++ evs2 ++ evs3 ++ rest.events }

/-- The text of line 52. -/
def banner : String := "Chat with Claude (use \x27ctrl-c\x27 to quit)\n"

/-- `Agent.Run`, lines 49-80, for at most `fuel` iterations of its loop. -/
def Agent.Run {ω : Type} (a : Agent ω) (fuel : Nat) (w : ω) : RunResult ω :=
  let rest := a.loop fuel [] w
  { rest with events := Event.print banner :: rest.events }

/-! ## The program `main` and sample collaborators -/

/-- The world of `main`: the lines still to come on standard input and the
state of the transport. -/
structure World (κ : Type) where
  stdin : List String
  net : κ

/-- The closure `getUserMessage` of `main`, lines 18-23, over a scanner of
standard input. -/
def scanUserMessage {κ : Type} (w : World κ) : (String × Bool) × World κ :=
  match w.stdin with
  | [] => (("", false), w)
  | line :: rest => ((line, true), { w with stdin := rest })

/-- A transport over its own state `κ`, seen from the world of `main`. -/
def worldClient {κ : Type} (transport : κ → MessageNewParams → Except Error Message × κ)
    (w : World κ) (params : MessageNewParams) : Except Error Message × World κ :=
  let r := transport w.net params
  (r.1, { w with net := r.2 })

/-- The agent `main` builds, lines 25-26. -/
def mainAgent {κ : Type} (transport : κ → MessageNewParams → Except Error Message × κ)
    (reflect : Reflector → StructType → Schema)
    (unmarshal : RawMessage → Except Error ReadFileInput)
    (osReadFile : String → Except Error String) : Agent (World κ) :=
  let tools := [ReadFileDefinition reflect unmarshal osReadFile]
  NewAgent (worldClient transport) scanUserMessage tools

/-- A transport for examples: it answers the calls with the replies of a
script, one after the other, and fails once the script is used up. -/
def scriptedTransport (script : List (Except Error Message)) (_params : MessageNewParams) :
    Except Error Message × List (Except Error Message) :=
  match script with
  | [] => (.error "connection refused", [])
  | reply :: rest => (reply, rest)

/-- The schema the reflection library computes for `ReadFileInput`: the string
property `path`, listed as required, and no undeclared properties. -/
def reflectedReadFileInput : Schema :=
  { Properties := [("path", { TypeName := "string", Description := "" })],
    Required := ["path"],
    AdditionalProperties := some false }

/-- A reflector for examples: it knows the type `ReadFileInput`. -/
def sampleReflect (_r : Reflector) (_T : StructType) : Schema := reflectedReadFileInput

/-- A decoder for examples: the results of `json.Unmarshal` on the raw inputs
the examples use. -/
def sampleUnmarshal (input : RawMessage) : Except Error ReadFileInput :=
  if input = "\x7b\"path\":\"file.txt\"\x7d" then .ok { Path := "file.txt" }
  else if input = "\x7b\"path\": 5\x7d" then
    .error "json: cannot unmarshal number into Go struct field ReadFileInput.path of type string"
  else .error "invalid character"

/-- A file system for examples: the single file `file.txt`. -/
def sampleReadFile (path : String) : Except Error String :=
  if path = "file.txt" then .ok "hello" else .error "open: no such file or directory"

/-- A response with text and two tool calls, for examples. -/
def sampleToolResponse : Message :=
  { Content :=
      [ContentBlock.Text "I will read it",
        ContentBlock.ToolCall "a" "read_file" "\x7b\"path\":\"file.txt\"\x7d",
        ContentBlock.ToolCall "b" "unknown_tool" "\x7b\x7d"],
    StopReason := "tool_use" }

/-- A response that ends the turn, for examples. -/
def sampleFinalResponse : Message :=
  { Content := [ContentBlock.Text "ok"], StopReason := "end_turn" }

/-- The agent of `main` over the scripted transport. -/
def sampleAgent : Agent (World (List (Except Error Message))) :=
  mainAgent scriptedTransport sampleReflect sampleUnmarshal sampleReadFile

/-- Two lines of user input; the model answers the first with tool calls. -/
def sampleWorld : World (List (Except Error Message)) :=
  { stdin := ["what is in file.txt?", "thanks"],
    net := [.ok sampleToolResponse, .ok sampleFinalResponse] }

/-- Three lines of user input; the second inference call fails. -/
def failingWorld : World (List (Except Error Message)) :=
  { stdin := ["hello", "again", "never read"],
    net := [.ok sampleFinalResponse, .error "overloaded", .ok sampleFinalResponse] }

/-- No user input at all. -/
def silentWorld : World (List (Except Error Message)) :=
  { stdin := [], net := [.ok sampleFinalResponse] }

/-- The first request of the sample run, written out. -/
def sampleRequest1 : MessageNewParams :=
  { Model := "claude-3-7-sonnet-latest", MaxTokens := 1024,
    Messages := [{ Role := Role.user, Content := [ContentBlock.Text "what is in file.txt?"] }],
    Tools := [] }

/-- The second request of the sample run, written out. -/
def sampleRequest2 : MessageNewParams :=
  { Model := "claude-3-7-sonnet-latest", MaxTokens := 1024,
    Messages :=
      [{ Role := Role.user, Content := [ContentBlock.Text "what is in file.txt?"] },
        { Role := Role.assistant,
          Content :=
            [ContentBlock.Text "I will read it",
              ContentBlock.ToolCall "a" "read_file" "\x7b\"path\":\"file.txt\"\x7d",
              ContentBlock.ToolCall "b" "unknown_tool" "\x7b\x7d"] },
        { Role := Role.user, Content := [ContentBlock.Text "thanks"] }],
    Tools := [] }

/-- The request of the failing run that is answered by an error, written out. -/
def failingRequest : MessageNewParams :=
  { Model := "claude-3-7-sonnet-latest", MaxTokens := 1024,
    Messages :=
      [{ Role := Role.user, Content := [ContentBlock.Text "hello"] },
        { Role := Role.assistant, Content := [ContentBlock.Text "ok"] },
        { Role := Role.user, Content := [ContentBlock.Text "again"] }],
    Tools := [] }

/-- The events of the sample run before its first inference call, with the
texts of lines 52 and 55 written out. -/
def sampleBefore1 : List Event :=
  [Event.print "Chat with Claude (use \x27ctrl-c\x27 to quit)\n",
    Event.print "\x1b[94mYou\x1b[0m: ",
    Event.getUserMessage "what is in file.txt?" true]

/-- The events of the sample run between its two inference calls, with the
texts of lines 74 and 55 written out. -/
def sampleBetween : List Event :=
  [Event.print "\x1b[92mClaude\x1b[0m: I will read it\n",
    Event.print "\x1b[94mYou\x1b[0m: ",
    Event.getUserMessage "thanks" true]

/-- The events of the sample run after its second inference call, with the
text of line 74 written out. -/
def sampleAfter2 : List Event := [Event.print "\x1b[92mClaude\x1b[0m: ok\n"]

/-- The events of the failing run before the call that fails, written out. -/
def failingBefore : List Event :=
  [Event.print "Chat with Claude (use \x27ctrl-c\x27 to quit)\n",
    Event.print "\x1b[94mYou\x1b[0m: ",
    Event.getUserMessage "hello" true,
    Event.inference
      { Model := "claude-3-7-sonnet-latest", MaxTokens := 1024,
        Messages := [{ Role := Role.user, Content := [ContentBlock.Text "hello"] }],
        Tools := [] }
      (.ok sampleFinalResponse),
    Event.print "\x1b[92mClaude\x1b[0m: ok\n",
    Event.print "\x1b[94mYou\x1b[0m: ",
    Event.getUserMessage "again" true]

/-! ## Projections of the event list -/

/-- The request and result of an inference event. -/
def Event.asCall : Event → Option (MessageNewParams × Except Error Message)
  | .inference params result => some (params, result)
  | _ => none

/-- The line of a `getUserMessage` event. -/
def Event.asInput : Event → Option String
  | .getUserMessage line _ => some line
  | _ => none

/-- The inference calls of a run, in the order they were made. -/
def inferenceCalls (events : List Event) : List (MessageNewParams × Except Error Message) :=
  events.filterMap Event.asCall

/-- The lines `getUserMessage` returned, in the order of the calls. -/
def userInputs (events : List Event) : List String :=
  events.filterMap Event.asInput

/-- The values of the text blocks of a content list, in order. -/
def textsOf (content : List ContentBlock) : List String :=
  content.filterMap (fun block =>
    match block with
    | .Text value => some value
    | _ => none)

/-- The declaration the spec asks for every registered tool. -/
def declarationOf (tool : ToolDefinition) : ToolUnionParam :=
  { Name := tool.Name, Description := tool.Description, InputSchema := tool.InputSchema }

/-! ## The shape of a run -/

/-- The request `runInference` builds for a conversation. -/
def Agent.requestOf {ω : Type} (a : Agent ω) (conversation : List MessageParam) :
    MessageNewParams :=
  { Model := ModelClaude3_7SonnetLatest, MaxTokens := 1024,
    Messages := conversation, Tools := anthropicToolsOf a.tools }

/-- The three events every iteration that reaches the transport starts with. -/
def turnHead {ω : Type} (a : Agent ω) (conversation : List MessageParam) (line : String)
    (result : Except Error Message) : List Event :=
  [Event.print youPrompt, Event.getUserMessage line true,
    Event.inference (a.requestOf (conversation ++ [NewUserMessage [NewTextBlock line]])) result]

/-- The runs of the loop, one rule per way an iteration can go: the iteration
count is used up, the input has ended, the transport failed, or a turn was
completed and the loop went on. -/
inductive Steps {ω : Type} (a : Agent ω) : List MessageParam → ω → RunResult ω → Prop where
  | pending (conv : List MessageParam) (w : ω) :
      Steps a conv w { ret := none, conversation := conv, events := [], world := w }
  | eof (conv : List MessageParam) (w : ω) (line : String)
      (hin : (a.getUserMessage w).1 = (line, false)) :
      Steps a conv w
        { ret := some none, conversation := conv,
          events := [Event.print youPrompt, Event.getUserMessage line false],
          world := (a.getUserMessage w).2 }
  | failed (conv : List MessageParam) (w : ω) (line : String) (err : Error)
      (hin : (a.getUserMessage w).1 = (line, true))
      (hcall : (a.client (a.getUserMessage w).2
        (a.requestOf (conv ++ [NewUserMessage [NewTextBlock line]]))).1 = .error err) :
      Steps a conv w
        { ret := some (some err),
          conversation := conv ++ [NewUserMessage [NewTextBlock line]],
          events := turnHead a conv line (.error err),
          world := (a.client (a.getUserMessage w).2
            (a.requestOf (conv ++ [NewUserMessage [NewTextBlock line]]))).2 }
  | turn (conv : List MessageParam) (w : ω) (line : String) (message : Message)
      (rest : RunResult ω)
      (hin : (a.getUserMessage w).1 = (line, true))
      (hcall : (a.client (a.getUserMessage w).2
        (a.requestOf (conv ++ [NewUserMessage [NewTextBlock line]]))).1 = .ok message)
      (hrest : Steps a (conv ++ [NewUserMessage [NewTextBlock line]] ++ [message.ToParam])
        (a.client (a.getUserMessage w).2
          (a.requestOf (conv ++ [NewUserMessage [NewTextBlock line]]))).2 rest) :
      Steps a conv w
        { rest with
          events := turnHead a conv line (.ok message) ++ printContent message.Content ++
            rest.events }

/-! ## Lemmas on the loop -/

theorem runInference_eq {ω : Type} (a : Agent ω) (w : ω) (conversation : List MessageParam) :
    a.runInference w conversation =
      ((a.client w (a.requestOf conversation)).1, (a.client w (a.requestOf conversation)).2,
        [Event.inference (a.requestOf conversation) (a.client w (a.requestOf conversation)).1]) :=
  rfl

theorem loop_steps {ω : Type} (a : Agent ω) (fuel : Nat) :
    ∀ (conv : List MessageParam) (w : ω), Steps a conv w (a.loop fuel conv w) := by
  induction fuel with
  | zero => intro conv w; exact Steps.pending conv w
  | succ n ih =>
    intro conv w
    rcases hg : a.getUserMessage w with ⟨⟨line, ok⟩, w1⟩
    cases ok with
    | false =>
      have h := Steps.eof (a := a) conv w line (by rw [hg])
      simpa [Agent.loop, hg] using h
    | true =>
      rcases hc : a.client w1 (a.requestOf (conv ++ [NewUserMessage [NewTextBlock line]]))
        with ⟨res, w2⟩
      cases res with
      | error err =>
        have h := Steps.failed (a := a) conv w line err (by rw [hg]) (by rw [hg, hc])
        simpa [Agent.loop, runInference_eq, turnHead, hg, hc] using h
      | ok message =>
        have h := Steps.turn (a := a) conv w line message _ (by rw [hg]) (by rw [hg, hc])
          (by simpa [hg, hc] using
            ih (conv ++ [NewUserMessage [NewTextBlock line]] ++ [message.ToParam]) w2)
        simpa [Agent.loop, runInference_eq, turnHead, hg, hc] using h

/-! ## Helper lemmas -/

theorem append_split {α : Type} {l1 l2 pre post : List α} {e : α}
    (h : l1 ++ l2 = pre ++ e :: post) :
    (∃ pre1, pre = l1 ++ pre1 ∧ l2 = pre1 ++ e :: post) ∨
      (∃ post1, l1 = pre ++ e :: post1 ∧ post = post1 ++ l2) := by
  rcases List.append_eq_append_iff.mp h with ⟨a1, h1, h2⟩ | ⟨c1, h1, h2⟩
  · exact Or.inl ⟨a1, h1, h2⟩
  · cases c1 with
    | nil =>
      refine Or.inl ⟨[], ?_, ?_⟩
      · simpa using h1.symm
      · simpa using h2.symm
    | cons x c2 =>
      simp only [List.cons_append, List.cons.injEq] at h2
      obtain ⟨hx, hp⟩ := h2
      subst hx
      exact Or.inr ⟨c2, h1, hp⟩

theorem printContent_eq_map (content : List ContentBlock) :
    printContent content = (textsOf content).map (fun t => Event.print (claudeLine t)) := by
  induction content with
  | nil => rfl
  | cons b rest ih =>
    cases b <;> simp [printContent, textsOf, ContentBlock.typeTag, ContentBlock.text] <;>
      simpa [textsOf] using ih

theorem mem_printContent {content : List ContentBlock} {e : Event}
    (h : e ∈ printContent content) : ∃ t, e = Event.print t := by
  rw [printContent_eq_map] at h
  rcases List.mem_map.mp h with ⟨t, _, rfl⟩
  exact ⟨_, rfl⟩

theorem anthropicToolsOf_eq_map (tools : List ToolDefinition) :
    anthropicToolsOf tools = tools.map declarationOf := by
  have key : ∀ (ts : List ToolDefinition) (acc : List ToolUnionParam),
      ts.foldl (fun anthropicTools tool =>
        anthropicTools ++
          [{ Name := tool.Name, Description := tool.Description,
             InputSchema := tool.InputSchema }]) acc = acc ++ ts.map declarationOf := by
    intro ts
    induction ts with
    | nil => intro acc; simp
    | cons t rest ih =>
      intro acc
      simp [List.foldl, ih, declarationOf]
  simpa [anthropicToolsOf] using key tools []

/-- Finding an event that is not a print in the head of a completed iteration. -/
theorem head_split {ω : Type} {a : Agent ω} {conv : List MessageParam} {line : String}
    {result : Except Error Message} {content : List ContentBlock} {pre post : List Event}
    {e : Event} (hnp : ∀ t, e ≠ Event.print t)
    (h : turnHead a conv line result ++ printContent content = pre ++ e :: post) :
    (pre = [Event.print youPrompt] ∧ e = Event.getUserMessage line true ∧
        post = Event.inference (a.requestOf (conv ++ [NewUserMessage [NewTextBlock line]]))
          result :: printContent content) ∨
      (pre = [Event.print youPrompt, Event.getUserMessage line true] ∧
        e = Event.inference (a.requestOf (conv ++ [NewUserMessage [NewTextBlock line]])) result ∧
        post = printContent content) := by
  match pre, h with
  | [], h =>
    simp only [turnHead, List.cons_append, List.nil_append, List.cons.injEq] at h
    exact absurd h.1.symm (hnp _)
  | [x], h =>
    simp only [turnHead, List.cons_append, List.nil_append, List.cons.injEq] at h
    obtain ⟨h1, h2, h3⟩ := h
    exact Or.inl ⟨by rw [h1], h2.symm, h3.symm⟩
  | [x, y], h =>
    simp only [turnHead, List.cons_append, List.nil_append, List.cons.injEq] at h
    obtain ⟨h1, h2, h3, h4⟩ := h
    exact Or.inr ⟨by rw [h1, h2], h3.symm, h4.symm⟩
  | x :: y :: z :: pre1, h =>
    simp only [turnHead, List.cons_append, List.nil_append, List.cons.injEq] at h
    obtain ⟨_, _, _, h4⟩ := h
    have hm : e ∈ printContent content := by rw [h4]; simp
    rcases mem_printContent hm with ⟨t, ht⟩
    exact absurd ht (hnp t)

/-- The events of a run of the loop are none, or start with the prompt. -/
theorem steps_events_head {ω : Type} {a : Agent ω} {conv : List MessageParam} {w : ω}
    {r : RunResult ω} (h : Steps a conv w r) :
    r.events = [] ∨ ∃ rest, r.events = Event.print youPrompt :: rest := by
  cases h with
  | pending => exact Or.inl rfl
  | eof => exact Or.inr ⟨_, rfl⟩
  | failed => exact Or.inr ⟨_, rfl⟩
  | turn => exact Or.inr ⟨_, rfl⟩

/-- The loop only appends to the conversation, and what it appends first is a
user message made of one text block. -/
theorem steps_conversation {ω : Type} {a : Agent ω} {conv : List MessageParam} {w : ω}
    {r : RunResult ω} (h : Steps a conv w r) :
    ∃ tail, r.conversation = conv ++ tail ∧
      (tail = [] ∨ ∃ line rest, tail = NewUserMessage [NewTextBlock line] :: rest) := by
  induction h with
  | pending conv w => exact ⟨[], by simp, Or.inl rfl⟩
  | eof conv w line hin => exact ⟨[], by simp, Or.inl rfl⟩
  | failed conv w line err hin hcall => exact ⟨[_], rfl, Or.inr ⟨line, [], rfl⟩⟩
  | turn conv w line message rest hin hcall hrest ih =>
    obtain ⟨tail, ht, _⟩ := ih
    refine ⟨NewUserMessage [NewTextBlock line] :: message.ToParam :: tail, ?_,
      Or.inr ⟨line, _, rfl⟩⟩
    simp only [ht]
    simp

/-- Everything the loop guarantees around one inference event. -/
theorem steps_inference {ω : Type} {a : Agent ω} {conv : List MessageParam} {w : ω}
    {r : RunResult ω} (h : Steps a conv w r) :
    ∀ (pre post : List Event) (req : MessageNewParams) (res : Except Error Message),
      r.events = pre ++ Event.inference req res :: post →
      (∃ pre1 line, pre = pre1 ++ [Event.getUserMessage line true]) ∧
      req.Tools = anthropicToolsOf a.tools ∧
      (∀ req1 e1, Event.inference req1 (.error e1) ∉ pre) ∧
      (∀ e, res = .error e →
        post = [] ∧ r.ret = some (some e) ∧ r.conversation = req.Messages) ∧
      (∀ m, res = .ok m →
        (∃ rest, post = printContent m.Content ++ rest ∧
          (rest = [] ∨ ∃ rest1, rest = Event.print youPrompt :: rest1)) ∧
        (∃ tail, r.conversation = req.Messages ++ m.ToParam :: tail ∧
          (tail = [] ∨ ∃ line rest, tail = NewUserMessage [NewTextBlock line] :: rest))) := by
  induction h with
  | pending conv w =>
    intro pre post req res hev
    simp at hev
  | eof conv w line hin =>
    intro pre post req res hev
    match pre, hev with
    | [], hev => simp at hev
    | [_], hev => simp at hev
    | _ :: _ :: _, hev => simp at hev
  | failed conv w line err hin hcall =>
    intro pre post req res hev
    have hev1 : turnHead a conv line (.error err) ++ printContent [] =
        pre ++ Event.inference req res :: post := by simpa [printContent] using hev
    rcases head_split (by intro t; simp) hev1 with ⟨_, h2, _⟩ | ⟨h1, h2, h3⟩
    · simp at h2
    · simp only [Event.inference.injEq] at h2
      obtain ⟨hreq, hres⟩ := h2
      subst hreq hres h1
      refine ⟨⟨[Event.print youPrompt], line, rfl⟩, rfl, ?_, ?_, ?_⟩
      · intro req1 e1 hm; simp at hm
      · intro e he
        simp only [Except.error.injEq] at he
        subst he
        exact ⟨by simpa [printContent] using h3, rfl, rfl⟩
      · intro m hm; simp at hm
  | turn conv w line message rest hin hcall hrest ih =>
    intro pre post req res hev
    have hev1 : (turnHead a conv line (.ok message) ++ printContent message.Content) ++
        rest.events = pre ++ Event.inference req res :: post := by simpa using hev
    rcases append_split hev1 with ⟨pre1, hp, hr⟩ | ⟨post1, hl, hp⟩
    · obtain ⟨⟨pre2, line2, hpre2⟩, htools, hnofail, herr, hok⟩ := ih pre1 post req res hr
      refine ⟨⟨(turnHead a conv line (.ok message) ++ printContent message.Content) ++ pre2,
        line2, ?_⟩, htools, ?_, herr, hok⟩
      · rw [hp, hpre2]; simp
      · intro req1 e1 hm
        rw [hp] at hm
        rcases List.mem_append.mp hm with hm1 | hm1
        · rcases List.mem_append.mp hm1 with hm2 | hm2
          · simp [turnHead] at hm2
          · rcases mem_printContent hm2 with ⟨t, ht⟩
            simp at ht
        · exact hnofail req1 e1 hm1
    · rcases head_split (by intro t; simp) hl with ⟨_, h2, _⟩ | ⟨h1, h2, h3⟩
      · simp at h2
      · simp only [Event.inference.injEq] at h2
        obtain ⟨hreq, hres⟩ := h2
        subst hreq hres h1
        refine ⟨⟨[Event.print youPrompt], line, rfl⟩, rfl, ?_, ?_, ?_⟩
        · intro req1 e1 hm; simp at hm
        · intro e he; simp at he
        · intro m hm
          simp only [Except.ok.injEq] at hm
          subst hm
          refine ⟨⟨rest.events, by rw [hp, h3], steps_events_head hrest⟩, ?_⟩
          obtain ⟨tail, ht, hshape⟩ := steps_conversation hrest
          refine ⟨tail, ?_, hshape⟩
          simp only [ht, Agent.requestOf]
          simp

/-- An end of input is the last event of the loop, and the loop returns nil. -/
theorem steps_eof {ω : Type} {a : Agent ω} {conv : List MessageParam} {w : ω}
    {r : RunResult ω} (h : Steps a conv w r) :
    ∀ (pre post : List Event) (line : String),
      r.events = pre ++ Event.getUserMessage line false :: post →
      post = [] ∧ r.ret = some none := by
  induction h with
  | pending conv w =>
    intro pre post l hev
    simp at hev
  | eof conv w line hin =>
    intro pre post l hev
    match pre, hev with
    | [], hev => simp at hev
    | [_], hev =>
      simp only [List.cons_append, List.nil_append, List.cons.injEq] at hev
      exact ⟨hev.2.2.symm, rfl⟩
    | _ :: _ :: _, hev => simp at hev
  | failed conv w line err hin hcall =>
    intro pre post l hev
    have hev1 : turnHead a conv line (.error err) ++ printContent [] =
        pre ++ Event.getUserMessage l false :: post := by simpa [printContent] using hev
    rcases head_split (by intro t; simp) hev1 with ⟨_, h2, _⟩ | ⟨_, h2, _⟩
    · simp at h2
    · simp at h2
  | turn conv w line message rest hin hcall hrest ih =>
    intro pre post l hev
    have hev1 : (turnHead a conv line (.ok message) ++ printContent message.Content) ++
        rest.events = pre ++ Event.getUserMessage l false :: post := by simpa using hev
    rcases append_split hev1 with ⟨pre1, _, hr⟩ | ⟨post1, hl, _⟩
    · exact ih pre1 post l hr
    · rcases head_split (by intro t; simp) hl with ⟨_, h2, _⟩ | ⟨_, h2, _⟩
      · simp at h2
      · simp at h2

/-- A loop that returned an error ended on a failed inference call. -/
theorem steps_ret_error {ω : Type} {a : Agent ω} {conv : List MessageParam} {w : ω}
    {r : RunResult ω} (h : Steps a conv w r) :
    ∀ e, r.ret = some (some e) → ∃ pre req, r.events = pre ++ [Event.inference req (.error e)] := by
  induction h with
  | pending conv w => intro e he; simp at he
  | eof conv w line hin => intro e he; simp at he
  | failed conv w line err hin hcall =>
    intro e he
    simp only [Option.some.injEq] at he
    subst he
    exact ⟨[Event.print youPrompt, Event.getUserMessage line true], _, rfl⟩
  | turn conv w line message rest hin hcall hrest ih =>
    intro e he
    obtain ⟨pre, req, hp⟩ := ih e he
    refine ⟨turnHead a conv line (.ok message) ++ printContent message.Content ++ pre, req, ?_⟩
    simp only [hp]
    simp

/-- A loop that returned nil ended on an end of input. -/
theorem steps_ret_nil {ω : Type} {a : Agent ω} {conv : List MessageParam} {w : ω}
    {r : RunResult ω} (h : Steps a conv w r) :
    r.ret = some none → ∃ pre line, r.events = pre ++ [Event.getUserMessage line false] := by
  induction h with
  | pending conv w => intro he; simp at he
  | eof conv w line hin => intro _; exact ⟨[Event.print youPrompt], line, rfl⟩
  | failed conv w line err hin hcall => intro he; simp at he
  | turn conv w line message rest hin hcall hrest ih =>
    intro he
    obtain ⟨pre, l, hp⟩ := ih he
    refine ⟨turnHead a conv line (.ok message) ++ printContent message.Content ++ pre, l, ?_⟩
    simp only [hp]
    simp

theorem inferenceCalls_printContent (content : List ContentBlock) :
    inferenceCalls (printContent content) = [] := by
  rw [printContent_eq_map]
  induction textsOf content with
  | nil => rfl
  | cons t rest ih => simp_all [inferenceCalls, Event.asCall]

theorem userInputs_printContent (content : List ContentBlock) :
    userInputs (printContent content) = [] := by
  rw [printContent_eq_map]
  induction textsOf content with
  | nil => rfl
  | cons t rest ih => simp_all [userInputs, Event.asInput]

theorem inferenceCalls_turn {ω : Type} (a : Agent ω) (conv : List MessageParam) (line : String)
    (result : Except Error Message) (content : List ContentBlock) (rest : List Event) :
    inferenceCalls (turnHead a conv line result ++ printContent content ++ rest) =
      (a.requestOf (conv ++ [NewUserMessage [NewTextBlock line]]), result) ::
        inferenceCalls rest := by
  have h := inferenceCalls_printContent content
  simp only [inferenceCalls] at h ⊢
  simp [turnHead, List.filterMap_append, Event.asCall, h]

theorem userInputs_turn {ω : Type} (a : Agent ω) (conv : List MessageParam) (line : String)
    (result : Except Error Message) (content : List ContentBlock) (rest : List Event) :
    userInputs (turnHead a conv line result ++ printContent content ++ rest) =
      line :: userInputs rest := by
  have h := userInputs_printContent content
  simp only [userInputs] at h ⊢
  simp [turnHead, List.filterMap_append, Event.asInput, h]

/-- The histories of the inference calls of the loop: the first is the
conversation so far and the first line, each later one extends the one before
by the answer and the next line. -/
theorem steps_calls {ω : Type} {a : Agent ω} {conv : List MessageParam} {w : ω}
    {r : RunResult ω} (h : Steps a conv w r) :
    (∀ req res, (inferenceCalls r.events)[0]? = some (req, res) →
      ∃ line, (userInputs r.events)[0]? = some line ∧
        req.Messages = conv ++ [NewUserMessage [NewTextBlock line]]) ∧
    (∀ k req res req1 res1, (inferenceCalls r.events)[k]? = some (req, res) →
      (inferenceCalls r.events)[k + 1]? = some (req1, res1) →
      ∃ m line, res = .ok m ∧ (userInputs r.events)[k + 1]? = some line ∧
        req1.Messages = req.Messages ++ [m.ToParam, NewUserMessage [NewTextBlock line]]) := by
  induction h with
  | pending conv w =>
    constructor
    · intro req res h0; simp [inferenceCalls] at h0
    · intro k req res req1 res1 h0; simp [inferenceCalls] at h0
  | eof conv w line hin =>
    constructor
    · intro req res h0; simp [inferenceCalls, Event.asCall] at h0
    · intro k req res req1 res1 h0; simp [inferenceCalls, Event.asCall] at h0
  | failed conv w line err hin hcall =>
    have hc := inferenceCalls_turn a conv line (.error err) [] []
    have hu := userInputs_turn a conv line (.error err) [] []
    simp only [printContent, List.append_nil] at hc hu
    simp only [hc, hu]
    constructor
    · intro req res h0
      simp only [List.getElem?_cons_zero, Option.some.injEq, Prod.mk.injEq] at h0
      obtain ⟨hreq, _⟩ := h0
      exact ⟨line, by simp [inferenceCalls, userInputs], by rw [← hreq]; rfl⟩
    · intro k req res req1 res1 _ h1
      simp [inferenceCalls] at h1
  | turn conv w line message rest hin hcall hrest ih =>
    obtain ⟨ih0, ihk⟩ := ih
    have hc := inferenceCalls_turn a conv line (.ok message) message.Content rest.events
    have hu := userInputs_turn a conv line (.ok message) message.Content rest.events
    simp only [hc, hu]
    constructor
    · intro req res h0
      simp only [List.getElem?_cons_zero, Option.some.injEq, Prod.mk.injEq] at h0
      obtain ⟨hreq, _⟩ := h0
      exact ⟨line, by simp, by rw [← hreq]; rfl⟩
    · intro k req res req1 res1 hk hk1
      cases k with
      | zero =>
        simp only [List.getElem?_cons_zero, Option.some.injEq, Prod.mk.injEq] at hk
        obtain ⟨hreq, hres⟩ := hk
        simp only [zero_add, List.getElem?_cons_succ] at hk1
        obtain ⟨line1, hl1, hm1⟩ := ih0 req1 res1 hk1
        refine ⟨message, line1, hres.symm, by simp [hl1], ?_⟩
        rw [hm1, ← hreq]
        simp [Agent.requestOf]
      | succ j =>
        simp only [List.getElem?_cons_succ] at hk hk1
        obtain ⟨m, line1, hres, hl1, hm1⟩ := ihk j req res req1 res1 hk hk1
        exact ⟨m, line1, hres, by simp [hl1], hm1⟩

/-- An event of `Run` that is not a print is an event of its loop. -/
theorem run_split {ω : Type} {a : Agent ω} {fuel : Nat} {w : ω} {pre post : List Event}
    {e : Event} (hnp : ∀ t, e ≠ Event.print t)
    (h : (a.Run fuel w).events = pre ++ e :: post) :
    ∃ pre1, pre = Event.print banner :: pre1 ∧ (a.loop fuel [] w).events = pre1 ++ e :: post := by
  cases pre with
  | nil =>
    simp only [Agent.Run, List.nil_append, List.cons.injEq] at h
    exact absurd h.1.symm (hnp _)
  | cons x pre1 =>
    simp only [Agent.Run, List.cons_append, List.cons.injEq] at h
    exact ⟨pre1, by rw [h.1], h.2⟩

/-- The request `runInference` sends declares the tools of the field `tools`,
one declaration per tool and in their order. -/
theorem runInference_declares_agent_tools {ω : Type} (a : Agent ω) (w : ω)
    (conversation : List MessageParam) :
    (a.runInference w conversation).2.2 =
      [Event.inference
        { Model := ModelClaude3_7SonnetLatest, MaxTokens := 1024,
          Messages := conversation, Tools := a.tools.map declarationOf }
        (a.runInference w conversation).1] := by
  rw [runInference_eq, Agent.requestOf, anthropicToolsOf_eq_map]

/-- Over the scanner of `main` the loop returns once the iteration count
exceeds the number of lines left on standard input. -/
theorem loop_returns_on_finite_input {κ : Type}
    (transport : κ → MessageNewParams → Except Error Message × κ)
    (tools : List ToolDefinition) (fuel : Nat) :
    ∀ (conv : List MessageParam) (w : World κ), w.stdin.length < fuel →
      ((NewAgent (worldClient transport) scanUserMessage tools).loop fuel conv w).ret ≠ none := by
  induction fuel with
  | zero => intro conv w h; simp at h
  | succ n ih =>
    intro conv w h
    rcases w with ⟨stdin, net⟩
    cases stdin with
    | nil => simp [Agent.loop, NewAgent, scanUserMessage]
    | cons line rest =>
      simp only [List.length_cons, Nat.add_lt_add_iff_right] at h
      rcases hc : transport net ((NewAgent (worldClient transport) scanUserMessage tools).requestOf
        (conv ++ [NewUserMessage [NewTextBlock line]])) with ⟨res, net1⟩
      cases res with
      | error err =>
        simp [Agent.loop, runInference_eq, NewAgent, scanUserMessage, worldClient,
          Agent.requestOf] at hc ⊢
        simp [hc]
      | ok message =>
        have h1 := ih (conv ++ [NewUserMessage [NewTextBlock line]] ++ [message.ToParam])
          { stdin := rest, net := net1 } h
        simp [Agent.loop, runInference_eq, NewAgent, scanUserMessage, worldClient,
          Agent.requestOf] at hc h1 ⊢
        simp [hc, h1]

/-! ## The claims -/

/-- C1, counterexample: the model answers the first line with the tool calls
`a` (read_file) and `b` (unknown_tool); the message `Run` appends after that
assistant message is the user message of the next line, not a message of two
tool results; with one iteration nothing is appended after it, and no message
of the conversation holds a tool-result block. -/
theorem Run_tool_calls_get_no_results :
    (sampleAgent.Run 2 sampleWorld).conversation =
      [NewUserMessage [NewTextBlock "what is in file.txt?"], sampleToolResponse.ToParam,
        NewUserMessage [NewTextBlock "thanks"], sampleFinalResponse.ToParam] ∧
    (sampleAgent.Run 1 sampleWorld).conversation =
      [NewUserMessage [NewTextBlock "what is in file.txt?"], sampleToolResponse.ToParam] ∧
    (∀ m ∈ (sampleAgent.Run 2 sampleWorld).conversation,
      ∀ block ∈ m.Content, block.typeTag ≠ "tool_result") := by
  decide

/-- C1, amended: for every response returned to `Run`, whatever tool calls it
holds, `Run` appends the assistant message to the history of the request and
after it either nothing or, as the next message, a user message of exactly one
text block; no tool-result message is built. -/
theorem Run_after_response_appends_user_text {ω : Type} (a : Agent ω) (fuel : Nat) (w : ω)
    (pre post : List Event) (req : MessageNewParams) (m : Message)
    (h : (a.Run fuel w).events = pre ++ Event.inference req (.ok m) :: post) :
    ∃ tail, (a.Run fuel w).conversation = req.Messages ++ m.ToParam :: tail ∧
      (tail = [] ∨ ∃ line rest, tail = NewUserMessage [NewTextBlock line] :: rest) := by
  obtain ⟨pre1, _, hloop⟩ := run_split (by intro t; simp) h
  exact ((steps_inference (loop_steps a fuel [] w) pre1 post req (.ok m) hloop).2.2.2.2 m rfl).2

/-- C1, witness: the sample run at its first response, which holds two tool calls. -/
theorem Run_after_response_appends_user_text_witness :
    (sampleAgent.Run 2 sampleWorld).events =
      sampleBefore1 ++ Event.inference sampleRequest1 (.ok sampleToolResponse) ::
        (sampleBetween ++ Event.inference sampleRequest2 (.ok sampleFinalResponse) ::
          sampleAfter2) ∧
    ∃ tail, (sampleAgent.Run 2 sampleWorld).conversation =
        sampleRequest1.Messages ++ sampleToolResponse.ToParam :: tail ∧
      (tail = [] ∨ ∃ line rest, tail = NewUserMessage [NewTextBlock line] :: rest) :=
  ⟨by decide,
    Run_after_response_appends_user_text sampleAgent 2 sampleWorld sampleBefore1
      (sampleBetween ++ Event.inference sampleRequest2 (.ok sampleFinalResponse) ::
        sampleAfter2)
      sampleRequest1 sampleToolResponse (by decide)⟩

/-- C2, counterexample: the first response holds tool calls, and before the
second inference call `Run` prints the prompt and calls `getUserMessage`. -/
theorem Run_asks_user_after_tool_calls :
    (sampleAgent.Run 2 sampleWorld).events =
      [Event.print banner, Event.print youPrompt,
        Event.getUserMessage "what is in file.txt?" true,
        Event.inference sampleRequest1 (.ok sampleToolResponse),
        Event.print (claudeLine "I will read it"), Event.print youPrompt,
        Event.getUserMessage "thanks" true,
        Event.inference sampleRequest2 (.ok sampleFinalResponse),
        Event.print (claudeLine "ok")] := by
  decide

/-- C2, amended: in `Run` every inference call comes directly after a call of
`getUserMessage` that reported more input, whatever the response before
contained. -/
theorem inference_follows_getUserMessage {ω : Type} (a : Agent ω) (fuel : Nat) (w : ω)
    (pre post : List Event) (req : MessageNewParams) (res : Except Error Message)
    (h : (a.Run fuel w).events = pre ++ Event.inference req res :: post) :
    ∃ pre1 line, pre = pre1 ++ [Event.getUserMessage line true] := by
  obtain ⟨pre1, hpre, hloop⟩ := run_split (by intro t; simp) h
  obtain ⟨pre2, line, hp2⟩ := (steps_inference (loop_steps a fuel [] w) pre1 post req res hloop).1
  exact ⟨Event.print banner :: pre2, line, by rw [hpre, hp2]; rfl⟩

/-- C2, witness: the sample run at its second inference call. -/
theorem inference_follows_getUserMessage_witness :
    (sampleAgent.Run 2 sampleWorld).events =
      (sampleBefore1 ++ Event.inference sampleRequest1 (.ok sampleToolResponse) ::
        sampleBetween) ++
      Event.inference sampleRequest2 (.ok sampleFinalResponse) :: sampleAfter2 ∧
    ∃ pre1 line,
      sampleBefore1 ++ Event.inference sampleRequest1 (.ok sampleToolResponse) ::
        sampleBetween = pre1 ++ [Event.getUserMessage line true] :=
  ⟨by decide,
    inference_follows_getUserMessage sampleAgent 2 sampleWorld
      (sampleBefore1 ++ Event.inference sampleRequest1 (.ok sampleToolResponse) ::
        sampleBetween)
      sampleAfter2 sampleRequest2 (.ok sampleFinalResponse) (by decide)⟩

/-- C3, the code at the failing input: `NewAgent` leaves the field `tools`
empty whatever tools it is given, so the request `runInference` sends carries
no declaration; the agent of `main`, built with `ReadFileDefinition`, sends a
request that does not declare read_file. -/
theorem NewAgent_requests_carry_no_tools {ω : Type}
    (client : ω → MessageNewParams → Except Error Message × ω)
    (getUserMessage : ω → (String × Bool) × ω) (tools : List ToolDefinition) (w : ω)
    (conversation : List MessageParam) :
    (NewAgent client getUserMessage tools).tools = [] ∧
    ((NewAgent client getUserMessage tools).runInference w conversation).2.2 =
      [Event.inference
        { Model := ModelClaude3_7SonnetLatest, MaxTokens := 1024,
          Messages := conversation, Tools := [] }
        (client w
          { Model := ModelClaude3_7SonnetLatest, MaxTokens := 1024,
            Messages := conversation, Tools := [] }).1] ∧
    (inferenceCalls (sampleAgent.Run 1 sampleWorld).events).map (fun call => call.1.Tools) =
      [[]] := by
  refine ⟨rfl, rfl, ?_⟩
  decide

/-- C4: `Run` returns an error exactly when an inference call failed; a
failed call is the last event of the run (no call of `getUserMessage` or of
the transport and no output follows), no call before it failed, the value
returned is the error of that call, and the conversation is still the history
sent with it. -/
theorem Run_error_iff_inference_fails {ω : Type} (a : Agent ω) (fuel : Nat) (w : ω) :
    ((∃ e, (a.Run fuel w).ret = some (some e)) ↔
      ∃ req e, Event.inference req (.error e) ∈ (a.Run fuel w).events) ∧
    (∀ (pre post : List Event) (req : MessageNewParams) (e : Error),
      (a.Run fuel w).events = pre ++ Event.inference req (.error e) :: post →
      (a.Run fuel w).ret = some (some e) ∧ post = [] ∧
        (a.Run fuel w).conversation = req.Messages ∧
        ∀ req1 e1, Event.inference req1 (.error e1) ∉ pre) := by
  have key : ∀ (pre post : List Event) (req : MessageNewParams) (e : Error),
      (a.Run fuel w).events = pre ++ Event.inference req (.error e) :: post →
      (a.Run fuel w).ret = some (some e) ∧ post = [] ∧
        (a.Run fuel w).conversation = req.Messages ∧
        ∀ req1 e1, Event.inference req1 (.error e1) ∉ pre := by
    intro pre post req e h
    obtain ⟨pre1, hpre, hloop⟩ := run_split (by intro t; simp) h
    obtain ⟨_, _, hnofail, herr, _⟩ :=
      steps_inference (loop_steps a fuel [] w) pre1 post req (.error e) hloop
    obtain ⟨hpost, hret, hconv⟩ := herr e rfl
    refine ⟨hret, hpost, hconv, ?_⟩
    intro req1 e1 hm
    rw [hpre] at hm
    rcases List.mem_cons.mp hm with hm1 | hm1
    · simp at hm1
    · exact hnofail req1 e1 hm1
  refine ⟨⟨?_, ?_⟩, key⟩
  · rintro ⟨e, he⟩
    obtain ⟨pre, req, hp⟩ := steps_ret_error (loop_steps a fuel [] w) e he
    exact ⟨req, e, by simp [Agent.Run, hp]⟩
  · rintro ⟨req, e, hm⟩
    obtain ⟨pre, post, hp⟩ := List.append_of_mem hm
    exact ⟨e, (key pre post req e hp).1⟩

/-- C4, witness: the run whose second inference call fails with `overloaded`. -/
theorem Run_error_iff_inference_fails_witness :
    (sampleAgent.Run 5 failingWorld).events =
      failingBefore ++ Event.inference failingRequest (.error "overloaded") :: [] ∧
    ((sampleAgent.Run 5 failingWorld).ret = some (some "overloaded") ∧
      ([] : List Event) = [] ∧
      (sampleAgent.Run 5 failingWorld).conversation = failingRequest.Messages ∧
      ∀ req1 e1, Event.inference req1 (.error e1) ∉ failingBefore) :=
  ⟨by decide,
    (Run_error_iff_inference_fails sampleAgent 5 failingWorld).2 failingBefore []
      failingRequest "overloaded" (by decide)⟩

/-- C5: when the first call of `getUserMessage` reports no more input, `Run`
returns nil after the banner, the prompt and that call, without an inference
call; in every run a call that reports no more input is the last event, and
the run has returned nil. -/
theorem Run_ends_at_end_of_input {ω : Type} (a : Agent ω) (fuel : Nat) (w : ω) :
    (∀ line, (a.getUserMessage w).1 = (line, false) →
      (a.Run (fuel + 1) w).ret = some none ∧
      (a.Run (fuel + 1) w).events =
        [Event.print banner, Event.print youPrompt, Event.getUserMessage line false] ∧
      inferenceCalls (a.Run (fuel + 1) w).events = [] ∧
      (a.Run (fuel + 1) w).conversation = []) ∧
    (∀ (pre post : List Event) (line : String),
      (a.Run fuel w).events = pre ++ Event.getUserMessage line false :: post →
      post = [] ∧ (a.Run fuel w).ret = some none ∧
        ∀ req res, Event.inference req res ∉ post) := by
  constructor
  · intro line hline
    have h1 : (a.getUserMessage w).1.1 = line := by rw [hline]
    have h2 : (a.getUserMessage w).1.2 = false := by rw [hline]
    simp [Agent.Run, Agent.loop, h1, h2, inferenceCalls, Event.asCall]
  · intro pre post line h
    obtain ⟨pre1, _, hloop⟩ := run_split (by intro t; simp) h
    obtain ⟨hpost, hret⟩ := steps_eof (loop_steps a fuel [] w) pre1 post line hloop
    refine ⟨hpost, hret, ?_⟩
    intro req res hm
    rw [hpost] at hm
    simp at hm

/-- C5, witness: the run on an empty standard input. -/
theorem Run_ends_at_end_of_input_witness :
    (sampleAgent.getUserMessage silentWorld).1 = ("", false) ∧
    ((sampleAgent.Run (4 + 1) silentWorld).ret = some none ∧
      (sampleAgent.Run (4 + 1) silentWorld).events =
        [Event.print banner, Event.print youPrompt, Event.getUserMessage "" false] ∧
      inferenceCalls (sampleAgent.Run (4 + 1) silentWorld).events = [] ∧
      (sampleAgent.Run (4 + 1) silentWorld).conversation = []) :=
  ⟨by decide, (Run_ends_at_end_of_input sampleAgent 4 silentWorld).1 "" (by decide)⟩

/-- C6: the history of the first inference call of `Run` is one message, of
role user, whose content is the single text block holding the first line as
`getUserMessage` returned it; the history of call k+1 is the history of call k,
then the message of role assistant with the content of the answer to call k
unchanged, then the message of role user whose content is the single text block
holding line k+1 as returned; the history of every call is kept as the
beginning of the conversation.  Lines are numbered by the calls of
`getUserMessage`. -/
theorem Run_history_grows_by_append {ω : Type} (a : Agent ω) (fuel : Nat) (w : ω) :
    (∀ req res, (inferenceCalls (a.Run fuel w).events)[0]? = some (req, res) →
      ∃ line, (userInputs (a.Run fuel w).events)[0]? = some line ∧
        req.Messages = [{ Role := Role.user, Content := [ContentBlock.Text line] }]) ∧
    (∀ k req res req1 res1,
      (inferenceCalls (a.Run fuel w).events)[k]? = some (req, res) →
      (inferenceCalls (a.Run fuel w).events)[k + 1]? = some (req1, res1) →
      ∃ m line, res = .ok m ∧ (userInputs (a.Run fuel w).events)[k + 1]? = some line ∧
        req1.Messages =
          req.Messages ++
            [{ Role := Role.assistant, Content := m.Content },
              { Role := Role.user, Content := [ContentBlock.Text line] }]) ∧
    (∀ (pre post : List Event) (req : MessageNewParams) (res : Except Error Message),
      (a.Run fuel w).events = pre ++ Event.inference req res :: post →
      ∃ tail, (a.Run fuel w).conversation = req.Messages ++ tail) := by
  have hc : inferenceCalls (a.Run fuel w).events = inferenceCalls (a.loop fuel [] w).events := by
    simp [Agent.Run, inferenceCalls, Event.asCall]
  have hu : userInputs (a.Run fuel w).events = userInputs (a.loop fuel [] w).events := by
    simp [Agent.Run, userInputs, Event.asInput]
  rw [hc, hu]
  have h := steps_calls (loop_steps a fuel [] w)
  refine ⟨?_, ?_, ?_⟩
  · intro req res h0
    obtain ⟨line, hl, hm⟩ := h.1 req res h0
    exact ⟨line, hl, by simpa [NewUserMessage, NewTextBlock] using hm⟩
  · intro k req res req1 res1 hk hk1
    obtain ⟨m, line, hres, hl, hm⟩ := h.2 k req res req1 res1 hk hk1
    exact ⟨m, line, hres, hl, by simpa [NewUserMessage, NewTextBlock, Message.ToParam] using hm⟩
  · intro pre post req res hev
    obtain ⟨pre1, _, hloop⟩ := run_split (by intro t; simp) hev
    obtain ⟨_, _, _, herr, hok⟩ :=
      steps_inference (loop_steps a fuel [] w) pre1 post req res hloop
    cases res with
    | error e => exact ⟨[], by simpa [Agent.Run] using (herr e rfl).2.2⟩
    | ok m =>
      obtain ⟨tail, ht, _⟩ := (hok m rfl).2
      exact ⟨m.ToParam :: tail, by simpa [Agent.Run] using ht⟩

/-- C6, witness: the two inference calls of the sample run, with the histories
written out: the second is the first, then the answer with its text block and
its two tool calls, then the line `thanks`. -/
theorem Run_history_grows_by_append_witness :
    ((inferenceCalls (sampleAgent.Run 2 sampleWorld).events)[0]? =
        some (sampleRequest1, .ok sampleToolResponse) ∧
      (inferenceCalls (sampleAgent.Run 2 sampleWorld).events)[0 + 1]? =
        some (sampleRequest2, .ok sampleFinalResponse)) ∧
    (sampleRequest1.Messages =
        [{ Role := Role.user, Content := [ContentBlock.Text "what is in file.txt?"] }] ∧
      userInputs (sampleAgent.Run 2 sampleWorld).events = ["what is in file.txt?", "thanks"]) ∧
    ∃ m line, Except.ok sampleToolResponse = Except.ok (ε := Error) m ∧
      (userInputs (sampleAgent.Run 2 sampleWorld).events)[0 + 1]? = some line ∧
      sampleRequest2.Messages =
        sampleRequest1.Messages ++
          [{ Role := Role.assistant, Content := m.Content },
            { Role := Role.user, Content := [ContentBlock.Text line] }] :=
  ⟨by decide, by decide,
    (Run_history_grows_by_append sampleAgent 2 sampleWorld).2.1 0 sampleRequest1
      (.ok sampleToolResponse) sampleRequest2 (.ok sampleFinalResponse) (by decide)
      (by decide)⟩

/-- C7: after a successful inference call `Run` prints one line per text block
of the response, in the order of the blocks, and nothing for any other block;
the line of a block is the Claude label of line 74, then the text of the block
unchanged, then a line feed.  What follows is the prompt of the next
iteration. -/
theorem Run_displays_text_blocks_in_order {ω : Type} (a : Agent ω) (fuel : Nat) (w : ω)
    (pre post : List Event) (req : MessageNewParams) (m : Message)
    (h : (a.Run fuel w).events = pre ++ Event.inference req (.ok m) :: post) :
    ∃ rest,
      post =
        (textsOf m.Content).map
          (fun t => Event.print ("\x1b[92mClaude\x1b[0m: " ++ t ++ "\n")) ++ rest ∧
      (rest = [] ∨ ∃ rest1, rest = Event.print "\x1b[94mYou\x1b[0m: " :: rest1) := by
  obtain ⟨pre1, _, hloop⟩ := run_split (by intro t; simp) h
  have hok := ((steps_inference (loop_steps a fuel [] w) pre1 post req (.ok m) hloop).2.2.2.2
    m rfl).1
  rw [printContent_eq_map] at hok
  simpa [claudeLine, youPrompt] using hok

/-- C7, witness: the first response of the sample run, one text block and two
tool calls; the one line printed for it is the label, `I will read it` and a
line feed, and the prompt follows. -/
theorem Run_displays_text_blocks_in_order_witness :
    (sampleAgent.Run 2 sampleWorld).events =
      sampleBefore1 ++ Event.inference sampleRequest1 (.ok sampleToolResponse) ::
        (sampleBetween ++ Event.inference sampleRequest2 (.ok sampleFinalResponse) ::
          sampleAfter2) ∧
    (textsOf sampleToolResponse.Content).map
        (fun t => Event.print ("\x1b[92mClaude\x1b[0m: " ++ t ++ "\n")) =
      [Event.print "\x1b[92mClaude\x1b[0m: I will read it\n"] ∧
    ∃ rest, sampleBetween ++ Event.inference sampleRequest2 (.ok sampleFinalResponse) ::
          sampleAfter2 =
        (textsOf sampleToolResponse.Content).map
          (fun t => Event.print ("\x1b[92mClaude\x1b[0m: " ++ t ++ "\n")) ++ rest ∧
      (rest = [] ∨ ∃ rest1, rest = Event.print "\x1b[94mYou\x1b[0m: " :: rest1) :=
  ⟨by decide, by decide,
    Run_displays_text_blocks_in_order sampleAgent 2 sampleWorld sampleBefore1
      (sampleBetween ++ Event.inference sampleRequest2 (.ok sampleFinalResponse) ::
        sampleAfter2)
      sampleRequest1 sampleToolResponse (by decide)⟩

/-- C8, counterexample: on the raw input with a number for `path`, which does
not decode into `ReadFileInput`, `ReadFile` panics with the decode error and
returns no pair. -/
theorem ReadFile_panics_on_undecodable_input :
    ReadFile sampleUnmarshal sampleReadFile "\x7b\"path\": 5\x7d" =
      GoResult.panicked
        "json: cannot unmarshal number into Go struct field ReadFileInput.path of type string" := by
  decide

/-- C8, amended: for input that decodes, `ReadFile` returns a pair, the pair
of the empty output and the error when the file cannot be read and the pair of
the content and nil otherwise; for input that does not decode it panics with
the decode error. -/
theorem ReadFile_outcomes (unmarshal : RawMessage → Except Error ReadFileInput)
    (osReadFile : String → Except Error String) (input : RawMessage) :
    (∀ err, unmarshal input = .error err →
      ReadFile unmarshal osReadFile input = GoResult.panicked err) ∧
    (∀ v err, unmarshal input = .ok v → osReadFile v.Path = .error err →
      ReadFile unmarshal osReadFile input = GoResult.returned ("", some err)) ∧
    (∀ v content, unmarshal input = .ok v → osReadFile v.Path = .ok content →
      ReadFile unmarshal osReadFile input = GoResult.returned (content, none)) := by
  refine ⟨?_, ?_, ?_⟩
  · intro err h; simp [ReadFile, h]
  · intro v err h1 h2; simp [ReadFile, h1, h2]
  · intro v content h1 h2; simp [ReadFile, h1, h2]

/-- C8, witness: the input that names `file.txt`, which the sample file system holds. -/
theorem ReadFile_outcomes_witness :
    (sampleUnmarshal "\x7b\"path\":\"file.txt\"\x7d" = .ok { Path := "file.txt" } ∧
      sampleReadFile "file.txt" = .ok "hello") ∧
    ReadFile sampleUnmarshal sampleReadFile "\x7b\"path\":\"file.txt\"\x7d" =
      GoResult.returned ("hello", none) :=
  ⟨by decide,
    (ReadFile_outcomes sampleUnmarshal sampleReadFile "\x7b\"path\":\"file.txt\"\x7d").2.2
      { Path := "file.txt" } "hello" (by decide) (by decide)⟩

/-- C9, counterexample: the reflector lists `path` as required and prohibits
undeclared properties for `ReadFileInput`, and the schema `GenerateSchema`
returns has no required name and no extra field. -/
theorem GenerateSchema_drops_required :
    (sampleReflect { AllowAdditionalProperties := false, DoNotReference := true }
        ReadFileInputType).Required = ["path"] ∧
    (sampleReflect { AllowAdditionalProperties := false, DoNotReference := true }
        ReadFileInputType).AdditionalProperties = some false ∧
    (GenerateSchema sampleReflect ReadFileInputType).Required = [] ∧
    (GenerateSchema sampleReflect ReadFileInputType).ExtraFields = [] := by
  decide

/-- C9, amended: for every input type the schema `GenerateSchema` returns holds
the properties the reflector computed, with the reflector set to prohibit
undeclared properties and to inline references, and nothing else: its list of
required names and its extra fields are empty whatever the reflector computed. -/
theorem GenerateSchema_keeps_properties_only (reflect : Reflector → StructType → Schema)
    (T : StructType) :
    (GenerateSchema reflect T).Properties =
      (reflect { AllowAdditionalProperties := false, DoNotReference := true } T).Properties ∧
    (GenerateSchema reflect T).Required = [] ∧
    (GenerateSchema reflect T).ExtraFields = [] :=
  ⟨rfl, rfl, rfl⟩

/-- C10, the code at the failing input: in the tag of the field `Path` a blank
stands between `jsonschema_description:` and the quoted text, so the lookup of
`jsonschema_description` finds nothing, while the lookup of `json` finds the
quoted `path`; without the blank the description would be found. -/
theorem ReadFileInput_description_not_found (unquote : String → Option String) :
    StructTag.Lookup unquote ReadFileInput_Path_Tag "jsonschema_description" = none ∧
    StructTag.Lookup unquote ReadFileInput_Path_Tag "json" = unquote "\"path\"" ∧
    StructTag.Lookup unquote
        "json:\"path\" jsonschema_description:\"The relative path to the file to read\""
        "jsonschema_description" =
      unquote "\"The relative path to the file to read\"" :=
  ⟨rfl, rfl, rfl⟩

end AgentLLM
